import Mathlib

/-!
Verification of the Girdbot grid/hedge trading core.

This file shallowly embeds the pure logic of the repository's core modules
(`girdbot/utils/helpers.py`, `girdbot/core/order_manager.py`,
`girdbot/core/grid_strategy.py`, `girdbot/core/hedge_manager.py`) and proves,
or refutes, the specification claims about them.

Modelling conventions:
* Python `Decimal` values are modelled as exact rationals (`ℚ`); the code's
  `quantize(Decimal('1'), rounding=ROUND_DOWN)` is truncation toward zero.
* Python dicts keyed by strings are modelled as association lists in insertion
  order (`List (String × α)`); dict assignment replaces the value in place for
  an existing key and appends for a new key.
* Network calls (order placement, cancellation, status fetch, market info) are
  modelled by oracle functions packaged in an environment record; an `Option`
  result of `none` models the call raising an exception (each call site in the
  source catches such exceptions where the Python code does).
* Wall-clock timestamps and log output are omitted: no claim depends on them.
-/

/-- Truncation of a rational toward zero, as performed by Python
`Decimal.quantize(Decimal('1'), rounding=ROUND_DOWN)`. -/
def truncQ (q : ℚ) : ℤ :=
  if 0 ≤ q then ⌊q⌋ else ⌈q⌉

/-- Embedding of `girdbot/utils/helpers.py::round_to_precision` with the
default `ROUND_DOWN` rounding: `(value / precision).quantize(Decimal('1'),
ROUND_DOWN) * precision`, with the `precision == 0` shortcut returning the
value unchanged. -/
def round_to_precision (value precision : ℚ) : ℚ :=
  if precision = 0 then value
  else (truncQ (value / precision) : ℚ) * precision

/-- Embedding of `GridStrategy._adjust_to_precision`
(`girdbot/core/grid_strategy.py`): identical quantization, but any
`precision <= 0` returns the value unchanged. -/
def adjust_to_precision (value precision : ℚ) : ℚ :=
  if precision ≤ 0 then value
  else (truncQ (value / precision) : ℚ) * precision

/-- Order side, the Python strings `"buy"` / `"sell"`. -/
inductive Side
  | buy
  | sell
deriving DecidableEq, Repr

/-- The opposite side (`"sell" if side == "buy" else "buy"`). -/
def Side.opposite : Side → Side
  | .buy => .sell
  | .sell => .buy

/-- Order status strings used by `OrderManager`: `"open"`,
`"partially_filled"`, `"filled"`, `"canceled"`. `opened` stands for the
Python string `"open"`. -/
inductive OrderStatus
  | opened
  | partiallyFilled
  | filled
  | canceled
deriving DecidableEq, Repr

/-- An order record as stored by `OrderManager` (the dict built in
`GridStrategy.place_buy_order` / `place_sell_order`); the wall-clock
`timestamp` / `filled_time` / `cancel_time` fields are omitted. -/
structure Order where
  level_id : String
  price : ℚ
  amount : ℚ
  side : Side
  status : OrderStatus
deriving DecidableEq, Repr

/-- The `OrderManager.orders` dict: order id → order data, in insertion
order. -/
abbrev OrderBook := List (String × Order)

/-- `OrderManager.get_order`. -/
def get_order (om : OrderBook) (oid : String) : Option Order :=
  (om.find? (fun p => p.1 = oid)).map (fun p => p.2)

/-- `OrderManager.add_order`: fails (returning `false`, book unchanged) if the
id is already present, otherwise stores the record. -/
def add_order (om : OrderBook) (oid : String) (od : Order) : Bool × OrderBook :=
  if om.any (fun p => p.1 = oid) then (false, om)
  else (true, om ++ [(oid, od)])

/-- `OrderManager.update_order`: fails (returning `false`, book unchanged) if
the id is absent, otherwise replaces the stored record. -/
def update_order (om : OrderBook) (oid : String) (od : Order) : Bool × OrderBook :=
  if om.any (fun p => p.1 = oid) then
    (true, om.map (fun p => if p.1 = oid then (oid, od) else p))
  else (false, om)

/-- `OrderManager.count_active_orders`: the number of stored orders whose
status is `"open"` or `"partially_filled"`. -/
def count_active_orders (om : OrderBook) : ℕ :=
  (om.map (fun p => p.2)).countP
    (fun od => decide (od.status = OrderStatus.opened ∨ od.status = OrderStatus.partiallyFilled))

/-- C9: adding an order under an id that is already present returns `false`
and leaves the stored orders unchanged; updating an absent id returns `false`
and changes nothing; and the active-order count equals the number of stored
orders whose status is `"open"` or `"partially_filled"`. -/
theorem order_manager_contract (om : OrderBook) (oid : String) (od : Order) :
    ((get_order om oid).isSome → add_order om oid od = (false, om))
    ∧ (get_order om oid = none → update_order om oid od = (false, om))
    ∧ count_active_orders om =
        (om.filter (fun p =>
          decide (p.2.status = OrderStatus.opened ∨ p.2.status = OrderStatus.partiallyFilled))).length := by
  refine ⟨?_, ?_, ?_⟩
  · intro h
    have h' : ∃ x, (oid, x) ∈ om := by simpa [get_order] using h
    rcases h' with ⟨x, hx⟩
    have hmem : om.any (fun p => p.1 = oid) = true :=
      List.any_eq_true.mpr ⟨(oid, x), hx, by simp⟩
    simp [add_order, hmem]
  · intro h
    have hnone : om.find? (fun p => p.1 = oid) = none := by
      simpa [get_order] using h
    have : om.any (fun p => p.1 = oid) = false := by
      rw [List.any_eq_false]
      intro x hx
      have := List.find?_eq_none.mp hnone x hx
      simpa using this
    simp [update_order, this]
  · simp [count_active_orders, List.countP_eq_length_filter, List.filter_map,
      Function.comp_def]

/-- Witness for `order_manager_contract` at a concrete book: the book holds
`"o1"` (open), so re-adding `"o1"` fails and updating the absent `"o2"`
fails. -/
theorem order_manager_contract_inst :
    (get_order [("o1", ⟨"level_0", 100, 2, Side.buy, OrderStatus.opened⟩)] "o1").isSome = true
    ∧ add_order [("o1", ⟨"level_0", 100, 2, Side.buy, OrderStatus.opened⟩)] "o1"
        ⟨"level_0", 100, 2, Side.buy, OrderStatus.opened⟩
        = (false, [("o1", ⟨"level_0", 100, 2, Side.buy, OrderStatus.opened⟩)])
    ∧ update_order [("o1", ⟨"level_0", 100, 2, Side.buy, OrderStatus.opened⟩)] "o2"
        ⟨"level_0", 100, 2, Side.buy, OrderStatus.opened⟩
        = (false, [("o1", ⟨"level_0", 100, 2, Side.buy, OrderStatus.opened⟩)]) :=
  ⟨by decide,
   (order_manager_contract _ "o1" _).1 (by decide),
   (order_manager_contract _ "o2" _).2.1 (by decide)⟩

/-- C10: `round_to_precision` with precision `0` returns the value unchanged;
for a positive precision it returns the precision times the truncation toward
zero of `value / precision`, which for nonnegative values is the greatest
integer multiple of the precision not exceeding the value; and
`_adjust_to_precision` returns the value unchanged for any precision `≤ 0`. -/
theorem rounding_spec (v p : ℚ) :
    round_to_precision v 0 = v
    ∧ (0 < p → round_to_precision v p = p * (truncQ (v / p) : ℚ))
    ∧ (0 < p → 0 ≤ v →
        round_to_precision v p = (⌊v / p⌋ : ℚ) * p
        ∧ round_to_precision v p ≤ v
        ∧ ∀ k : ℤ, (k : ℚ) * p ≤ v → (k : ℚ) * p ≤ round_to_precision v p)
    ∧ (p ≤ 0 → adjust_to_precision v p = v) := by
  refine ⟨by simp [round_to_precision], ?_, ?_, ?_⟩
  · intro hp
    simp [round_to_precision, hp.ne', mul_comm]
  · intro hp hv
    have hdiv : 0 ≤ v / p := div_nonneg hv hp.le
    have htr : truncQ (v / p) = ⌊v / p⌋ := by simp [truncQ, hdiv]
    have heq : round_to_precision v p = (⌊v / p⌋ : ℚ) * p := by
      simp [round_to_precision, hp.ne', htr]
    refine ⟨heq, ?_, ?_⟩
    · rw [heq]
      have h1 : (⌊v / p⌋ : ℚ) ≤ v / p := Int.floor_le _
      calc (⌊v / p⌋ : ℚ) * p ≤ (v / p) * p := by
            exact mul_le_mul_of_nonneg_right h1 hp.le
        _ = v := div_mul_cancel₀ v hp.ne'
    · intro k hk
      rw [heq]
      have hk' : (k : ℚ) ≤ v / p := (le_div_iff₀ hp).mpr hk
      have : k ≤ ⌊v / p⌋ := Int.le_floor.mpr hk'
      exact mul_le_mul_of_nonneg_right (by exact_mod_cast this) hp.le
  · intro hp
    simp [adjust_to_precision, hp]

/-- Witness for `rounding_spec` at `v = 7/3`, `p = 1/100`: rounding down to a
step of `0.01` gives `2.33`, the greatest multiple of `0.01` not exceeding
`7/3`. -/
theorem rounding_spec_inst :
    (0 : ℚ) < 1/100 ∧ (0 : ℚ) ≤ 7/3
    ∧ round_to_precision (7/3) (1/100) = ((⌊(7:ℚ)/3 / (1/100)⌋ : ℚ) * (1/100))
    ∧ round_to_precision (7/3) (1/100) ≤ 7/3 :=
  ⟨by norm_num, by norm_num,
   ((rounding_spec (7/3) (1/100)).2.2.1 (by norm_num) (by norm_num)).1,
   ((rounding_spec (7/3) (1/100)).2.2.1 (by norm_num) (by norm_num)).2.1⟩

/-- The level status strings of `GridLevel` in `girdbot/core/grid_strategy.py`.
-/
inductive LevelStatus
  | READY
  | BUYING
  | BOUGHT
  | SELLING
  | SOLD
deriving DecidableEq, Repr

/-- A grid level (`GridLevel` in `girdbot/core/grid_strategy.py`); the
wall-clock `last_update` field is omitted. -/
structure GridLevel where
  id : String
  price : ℚ
  amount : ℚ
  buy_order_id : Option String
  sell_order_id : Option String
  status : LevelStatus
deriving DecidableEq, Repr

/-- One appended trade record (`TradeRecorder.record_trade` appends it
unconditionally); strategy id, pair and timestamps are omitted, the derived
`trade_id` carries no extra information for the claims below. -/
structure Trade where
  order_id : String
  side : Side
  price : ℚ
  amount : ℚ
deriving DecidableEq, Repr

/-- The mutable state of one `GridStrategy` relevant to the claims: its
levels, its `OrderManager` book, the appended trade records, and the
completed-trade counter. -/
structure StratState where
  levels : List GridLevel
  orders : OrderBook
  trades : List Trade
  completed_trades : ℕ
deriving Repr

/-- The primary-exchange environment of a strategy: the venue precision pair
returned by `get_exchange_precision`, and the outcome of
`create_limit_order` per side and level (`none` models the call raising an
exception, which every placement site catches). -/
structure Env where
  price_prec : ℚ
  amount_prec : ℚ
  place : Side → String → Option String

/-- Replace the first element satisfying `p` (the in-place mutation of the
first matching Python object in a list). -/
def replaceFirst (p : α → Bool) (f : α → α) : List α → List α
  | [] => []
  | x :: xs => if p x then f x :: xs else x :: replaceFirst p f xs

/-- `GridStrategy.place_buy_order` with hedging disabled: adjust price and
amount to precision (a zero adjusted price makes the base-amount division
raise, caught by the surrounding `except`), place the order, and on success
mark the level BUYING and store the open order.  Any failure leaves the
state unchanged. -/
def place_buy_order (env : Env) (s : StratState) (lv : GridLevel) : StratState :=
  let price := adjust_to_precision lv.price env.price_prec
  if price = 0 then s
  else
    let base_amount := adjust_to_precision (lv.amount / price) env.amount_prec
    match env.place Side.buy lv.id with
    | none => s
    | some oid =>
      { s with
        levels := replaceFirst (fun l => l.id = lv.id)
          (fun _ => { lv with buy_order_id := some oid, status := LevelStatus.BUYING }) s.levels,
        orders := (add_order s.orders oid
          ⟨lv.id, lv.price, base_amount, Side.buy, OrderStatus.opened⟩).2 }

/-- `GridStrategy.place_sell_order` with hedging disabled, symmetric to
`place_buy_order`. -/
def place_sell_order (env : Env) (s : StratState) (lv : GridLevel) : StratState :=
  let price := adjust_to_precision lv.price env.price_prec
  if price = 0 then s
  else
    let base_amount := adjust_to_precision (lv.amount / price) env.amount_prec
    match env.place Side.sell lv.id with
    | none => s
    | some oid =>
      { s with
        levels := replaceFirst (fun l => l.id = lv.id)
          (fun _ => { lv with sell_order_id := some oid, status := LevelStatus.SELLING }) s.levels,
        orders := (add_order s.orders oid
          ⟨lv.id, lv.price, base_amount, Side.sell, OrderStatus.opened⟩).2 }

/-- The loop body of `GridStrategy.update_grid_orders` for one level. -/
def update_one_level (env : Env) (current_price : ℚ) (s : StratState) (lv : GridLevel) :
    StratState :=
  match lv.status with
  | LevelStatus.READY =>
    if current_price < lv.price then place_buy_order env s lv
    else if current_price > lv.price then place_sell_order env s lv
    else s
  | LevelStatus.BOUGHT =>
    if lv.sell_order_id = none then place_sell_order env s lv else s
  | LevelStatus.SOLD =>
    if lv.buy_order_id = none then place_buy_order env s lv else s
  | _ => s

/-- `GridStrategy.update_grid_orders`: drive every level one step against the
current price, threading the shared state through the loop. -/
def update_grid_orders (env : Env) (current_price : ℚ) (s : StratState) : StratState :=
  s.levels.foldl (update_one_level env current_price) s

/-- `GridStrategy.handle_order_filled`: look the order up, mark it filled,
set the level status / clear the filled side's reference, place the opposite
order, and append one trade record. -/
def handle_order_filled (env : Env) (s : StratState) (oid : String) : StratState :=
  match get_order s.orders oid with
  | none => s
  | some od =>
    let s1 : StratState :=
      { s with orders := (update_order s.orders oid { od with status := OrderStatus.filled }).2 }
    match s1.levels.find? (fun l => l.id = od.level_id) with
    | none => s1
    | some lv =>
      let s2 :=
        match od.side with
        | Side.buy =>
          let lv' : GridLevel := { lv with status := LevelStatus.BOUGHT, buy_order_id := none }
          place_sell_order env
            { s1 with levels := replaceFirst (fun l => l.id = od.level_id) (fun _ => lv') s1.levels }
            lv'
        | Side.sell =>
          let lv' : GridLevel := { lv with status := LevelStatus.SOLD, sell_order_id := none }
          place_buy_order env
            { s1 with levels := replaceFirst (fun l => l.id = od.level_id) (fun _ => lv') s1.levels }
            lv'
      { s2 with
        trades := s2.trades ++ [⟨oid, od.side, od.price, od.amount⟩],
        completed_trades := s2.completed_trades + 1 }

/-- `girdbot/utils/helpers.py::calculate_grid_prices`: the raw, unrounded
equally spaced prices. -/
def calculate_grid_prices (start_price end_price : ℚ) (grid_levels : ℕ) : List ℚ :=
  if grid_levels ≤ 1 then [start_price]
  else
    (List.range grid_levels).map
      (fun (i : ℕ) => start_price + ((end_price - start_price) / ((grid_levels : ℚ) - 1)) * (i : ℚ))

/-- `GridStrategy.calculate_grid_levels`: equally spaced prices adjusted down
to the venue price precision, each level allocated
`total_investment / grid_levels`. -/
def calculate_grid_levels (start_price end_price : ℚ) (grid_levels : ℕ)
    (total_investment : ℚ) (price_precision : ℚ) : List GridLevel :=
  let price_step : ℚ :=
    if 1 < grid_levels then (end_price - start_price) / ((grid_levels : ℚ) - 1) else 0
  let amount_per_grid := total_investment / (grid_levels : ℚ)
  (List.range grid_levels).map (fun (i : ℕ) =>
    { id := "level_" ++ toString i,
      price := adjust_to_precision (start_price + price_step * (i : ℚ)) price_precision,
      amount := amount_per_grid,
      buy_order_id := none,
      sell_order_id := none,
      status := LevelStatus.READY })

theorem find?_replaceFirst {α : Type} (p : α → Bool) (f : α → α)
    (hf : ∀ a, p a → p (f a)) (xs : List α) :
    (replaceFirst p f xs).find? p = (xs.find? p).map f := by
  induction xs with
  | nil => rfl
  | cons x xs ih =>
    cases hp : p x with
    | true => simp [replaceFirst, hp, List.find?_cons_of_pos, hf x hp]
    | false =>
      simp only [replaceFirst, hp, Bool.false_eq_true, if_false]
      rw [List.find?_cons_of_neg _ (by simp [hp]), List.find?_cons_of_neg _ (by simp [hp])]
      exact ih

theorem replaceFirst_self {α : Type} (p : α → Bool) (x : α) (xs : List α)
    (h : xs.find? p = some x) : replaceFirst p (fun _ => x) xs = xs := by
  induction xs with
  | nil => simp at h
  | cons y ys ih =>
    cases hp : p y with
    | true =>
      rw [List.find?_cons_of_pos _ hp] at h
      simp [replaceFirst, hp, (Option.some_inj.mp h).symm]
    | false =>
      rw [List.find?_cons_of_neg _ (by simp [hp])] at h
      simp [replaceFirst, hp, ih h]

theorem replaceFirst_append_left {α : Type} (p : α → Bool) (f : α → α)
    (A l : List α) (hA : ∀ a ∈ A, p a = false) :
    replaceFirst p f (A ++ l) = A ++ replaceFirst p f l := by
  induction A with
  | nil => rfl
  | cons a A ih =>
    have ha : p a = false := hA a (by simp)
    simp only [List.cons_append, replaceFirst, ha, Bool.false_eq_true, if_false]
    exact congrArg (List.cons a) (ih (fun x hx => hA x (List.mem_cons_of_mem a hx)))

/-- Effect of `place_buy_order` on the level list, for a level that is the
first id-match in the state. -/
theorem place_buy_order_levels (env : Env) (s : StratState) (lv : GridLevel)
    (hpz : adjust_to_precision lv.price env.price_prec ≠ 0) :
    (place_buy_order env s lv).levels =
      match env.place Side.buy lv.id with
      | none => s.levels
      | some oid =>
        replaceFirst (fun l => l.id = lv.id)
          (fun _ => { lv with buy_order_id := some oid, status := LevelStatus.BUYING }) s.levels := by
  cases h : env.place Side.buy lv.id <;> simp [place_buy_order, hpz, h]

theorem place_sell_order_levels (env : Env) (s : StratState) (lv : GridLevel)
    (hpz : adjust_to_precision lv.price env.price_prec ≠ 0) :
    (place_sell_order env s lv).levels =
      match env.place Side.sell lv.id with
      | none => s.levels
      | some oid =>
        replaceFirst (fun l => l.id = lv.id)
          (fun _ => { lv with sell_order_id := some oid, status := LevelStatus.SELLING }) s.levels := by
  cases h : env.place Side.sell lv.id <;> simp [place_sell_order, hpz, h]

theorem place_buy_order_trades (env : Env) (s : StratState) (lv : GridLevel) :
    (place_buy_order env s lv).trades = s.trades := by
  unfold place_buy_order
  by_cases hpz : adjust_to_precision lv.price env.price_prec = 0 <;>
    cases h : env.place Side.buy lv.id <;> simp [hpz, h]

theorem place_sell_order_trades (env : Env) (s : StratState) (lv : GridLevel) :
    (place_sell_order env s lv).trades = s.trades := by
  unfold place_sell_order
  by_cases hpz : adjust_to_precision lv.price env.price_prec = 0 <;>
    cases h : env.place Side.sell lv.id <;> simp [hpz, h]

theorem place_buy_order_completed (env : Env) (s : StratState) (lv : GridLevel) :
    (place_buy_order env s lv).completed_trades = s.completed_trades := by
  unfold place_buy_order
  by_cases hpz : adjust_to_precision lv.price env.price_prec = 0 <;>
    cases h : env.place Side.buy lv.id <;> simp [hpz, h]

theorem place_sell_order_completed (env : Env) (s : StratState) (lv : GridLevel) :
    (place_sell_order env s lv).completed_trades = s.completed_trades := by
  unfold place_sell_order
  by_cases hpz : adjust_to_precision lv.price env.price_prec = 0 <;>
    cases h : env.place Side.sell lv.id <;> simp [hpz, h]


/-- C1: when the fill handler processes a tracked order of a known level, it
appends exactly one trade record for the fill and bumps the completed-trade
counter; for a buy fill it sets the level to BOUGHT, clears the buy
reference and immediately attempts the level's sell placement (so the level
ends SELLING with the new sell id when the placement succeeds, and stays
BOUGHT with the buy reference cleared when the placement raises); a sell
fill is symmetric (SOLD, sell reference cleared, buy placement attempted). -/
theorem handle_order_filled_transitions (env : Env) (s : StratState) (oid : String)
    (od : Order) (lv : GridLevel)
    (hod : get_order s.orders oid = some od)
    (hlv : s.levels.find? (fun l => l.id = od.level_id) = some lv)
    (hpz : adjust_to_precision lv.price env.price_prec ≠ 0) :
    (handle_order_filled env s oid).trades = s.trades ++ [⟨oid, od.side, od.price, od.amount⟩]
    ∧ (handle_order_filled env s oid).completed_trades = s.completed_trades + 1
    ∧ (handle_order_filled env s oid).levels.find? (fun l => l.id = od.level_id) =
        some (match od.side, env.place od.side.opposite od.level_id with
          | Side.buy, some sid =>
            { lv with status := LevelStatus.SELLING, buy_order_id := none,
                      sell_order_id := some sid }
          | Side.buy, none => { lv with status := LevelStatus.BOUGHT, buy_order_id := none }
          | Side.sell, some bid =>
            { lv with status := LevelStatus.BUYING, sell_order_id := none,
                      buy_order_id := some bid }
          | Side.sell, none => { lv with status := LevelStatus.SOLD, sell_order_id := none }) := by
  have hid : lv.id = od.level_id := by simpa using List.find?_some hlv
  cases hside : od.side with
  | buy =>
    cases hplace : env.place Side.sell od.level_id with
    | none =>
      simp only [handle_order_filled, hod, hside, hlv, Side.opposite, hplace]
      refine ⟨?_, ?_, ?_⟩
      · rw [place_sell_order_trades]
      · rw [place_sell_order_completed]
      · rw [place_sell_order_levels _ _ _ (by simpa using hpz)]
        simp only [hid, hplace]
        rw [find?_replaceFirst _ _ (fun a _ => by simp [hid]) s.levels, hlv]
        rfl
    | some sid =>
      simp only [handle_order_filled, hod, hside, hlv, Side.opposite, hplace]
      refine ⟨?_, ?_, ?_⟩
      · rw [place_sell_order_trades]
      · rw [place_sell_order_completed]
      · rw [place_sell_order_levels _ _ _ (by simpa using hpz)]
        simp only [hid, hplace]
        rw [find?_replaceFirst _ _ (fun a _ => by simp [hid]),
          find?_replaceFirst _ _ (fun a _ => by simp [hid]) s.levels, hlv]
        rfl
  | sell =>
    cases hplace : env.place Side.buy od.level_id with
    | none =>
      simp only [handle_order_filled, hod, hside, hlv, Side.opposite, hplace]
      refine ⟨?_, ?_, ?_⟩
      · rw [place_buy_order_trades]
      · rw [place_buy_order_completed]
      · rw [place_buy_order_levels _ _ _ (by simpa using hpz)]
        simp only [hid, hplace]
        rw [find?_replaceFirst _ _ (fun a _ => by simp [hid]) s.levels, hlv]
        rfl
    | some bid =>
      simp only [handle_order_filled, hod, hside, hlv, Side.opposite, hplace]
      refine ⟨?_, ?_, ?_⟩
      · rw [place_buy_order_trades]
      · rw [place_buy_order_completed]
      · rw [place_buy_order_levels _ _ _ (by simpa using hpz)]
        simp only [hid, hplace]
        rw [find?_replaceFirst _ _ (fun a _ => by simp [hid]),
          find?_replaceFirst _ _ (fun a _ => by simp [hid]) s.levels, hlv]
        rfl

/-- Witness for `handle_order_filled_transitions`: a concrete BUYING level at
price 100 whose tracked buy order `"o1"` is observed filled; exactly one
trade record is appended. -/
theorem handle_order_filled_transitions_inst :
    (handle_order_filled ⟨1/100, 1/100, fun _ _ => some "x1"⟩
        ⟨[⟨"level_0", 100, 200, some "o1", none, LevelStatus.BUYING⟩],
         [("o1", ⟨"level_0", 100, 2, Side.buy, OrderStatus.opened⟩)], [], 0⟩ "o1").trades
      = [] ++ [⟨"o1", Side.buy, 100, 2⟩] :=
  (handle_order_filled_transitions ⟨1/100, 1/100, fun _ _ => some "x1"⟩
    ⟨[⟨"level_0", 100, 200, some "o1", none, LevelStatus.BUYING⟩],
     [("o1", ⟨"level_0", 100, 2, Side.buy, OrderStatus.opened⟩)], [], 0⟩ "o1"
    ⟨"level_0", 100, 2, Side.buy, OrderStatus.opened⟩
    ⟨"level_0", 100, 200, some "o1", none, LevelStatus.BUYING⟩
    (by with_unfolding_all rfl) (by with_unfolding_all rfl)
    (by norm_num [adjust_to_precision, truncQ])).1

/-- C2 counterexample: re-invoking the fill handler for the already-handled
order `"o1"` appends a second, duplicate trade record (and bumps the
completed-trade counter again), contradicting the claimed idempotence. -/
theorem fill_handler_reinvocation_cex :
    (handle_order_filled ⟨1/100, 1/100, fun _ _ => some "x1"⟩
        ⟨[⟨"level_0", 100, 200, some "o1", none, LevelStatus.BUYING⟩],
         [("o1", ⟨"level_0", 100, 2, Side.buy, OrderStatus.opened⟩)], [], 0⟩ "o1").trades
      = [⟨"o1", Side.buy, 100, 2⟩]
    ∧ (handle_order_filled ⟨1/100, 1/100, fun _ _ => some "x1"⟩
        (handle_order_filled ⟨1/100, 1/100, fun _ _ => some "x1"⟩
          ⟨[⟨"level_0", 100, 200, some "o1", none, LevelStatus.BUYING⟩],
           [("o1", ⟨"level_0", 100, 2, Side.buy, OrderStatus.opened⟩)], [], 0⟩ "o1") "o1").trades
      = [⟨"o1", Side.buy, 100, 2⟩, ⟨"o1", Side.buy, 100, 2⟩]
    ∧ (handle_order_filled ⟨1/100, 1/100, fun _ _ => some "x1"⟩
        (handle_order_filled ⟨1/100, 1/100, fun _ _ => some "x1"⟩
          ⟨[⟨"level_0", 100, 200, some "o1", none, LevelStatus.BUYING⟩],
           [("o1", ⟨"level_0", 100, 2, Side.buy, OrderStatus.opened⟩)], [], 0⟩ "o1") "o1").completed_trades
      = 2 :=
  ⟨by with_unfolding_all rfl, by with_unfolding_all rfl, by with_unfolding_all rfl⟩

/-- C2 (amended): the fill handler has no idempotency guard: re-invoking it
for an order whose stored status is already `"filled"` appends another trade
record for the same order id, increments the completed-trade counter again,
and re-runs the opposite-side placement exactly as a first invocation
would. -/
theorem handle_order_filled_refill_appends (env : Env) (s : StratState) (oid : String)
    (od : Order) (lv : GridLevel)
    (hod : get_order s.orders oid = some od)
    (hfilled : od.status = OrderStatus.filled)
    (hlv : s.levels.find? (fun l => l.id = od.level_id) = some lv) :
    (handle_order_filled env s oid).trades = s.trades ++ [⟨oid, od.side, od.price, od.amount⟩]
    ∧ (handle_order_filled env s oid).completed_trades = s.completed_trades + 1 := by
  cases hside : od.side with
  | buy =>
    simp only [handle_order_filled, hod, hside, hlv]
    exact ⟨by rw [place_sell_order_trades], by rw [place_sell_order_completed]⟩
  | sell =>
    simp only [handle_order_filled, hod, hside, hlv]
    exact ⟨by rw [place_buy_order_trades], by rw [place_buy_order_completed]⟩

/-- Witness for `handle_order_filled_refill_appends`: the state right after
the first handling of `"o1"` (order stored as filled, one trade recorded); a
second invocation appends the duplicate record. -/
theorem handle_order_filled_refill_appends_inst :
    (handle_order_filled ⟨1/100, 1/100, fun _ _ => some "x1"⟩
        ⟨[⟨"level_0", 100, 200, none, some "x1", LevelStatus.SELLING⟩],
         [("o1", ⟨"level_0", 100, 2, Side.buy, OrderStatus.filled⟩),
          ("x1", ⟨"level_0", 100, 2, Side.sell, OrderStatus.opened⟩)],
         [⟨"o1", Side.buy, 100, 2⟩], 1⟩ "o1").trades
      = [⟨"o1", Side.buy, 100, 2⟩] ++ [⟨"o1", Side.buy, 100, 2⟩] :=
  (handle_order_filled_refill_appends ⟨1/100, 1/100, fun _ _ => some "x1"⟩
    ⟨[⟨"level_0", 100, 200, none, some "x1", LevelStatus.SELLING⟩],
     [("o1", ⟨"level_0", 100, 2, Side.buy, OrderStatus.filled⟩),
      ("x1", ⟨"level_0", 100, 2, Side.sell, OrderStatus.opened⟩)],
     [⟨"o1", Side.buy, 100, 2⟩], 1⟩ "o1"
    ⟨"level_0", 100, 2, Side.buy, OrderStatus.filled⟩
    ⟨"level_0", 100, 200, none, some "x1", LevelStatus.SELLING⟩
    (by with_unfolding_all rfl) rfl (by with_unfolding_all rfl)).1

/-- C4: for a READY level (with successful placements available), one step of
the grid-order update places a buy order (level becomes BUYING with the new
buy id) exactly when the current price is strictly below the level price,
places a sell order (SELLING) exactly when strictly above, and leaves the
whole state untouched when the current price equals the level price. -/
theorem ready_level_price_gate (env : Env) (current_price : ℚ) (s : StratState)
    (lv : GridLevel) (bid sid : String)
    (hst : lv.status = LevelStatus.READY)
    (hlv : s.levels.find? (fun l => l.id = lv.id) = some lv)
    (hpz : adjust_to_precision lv.price env.price_prec ≠ 0)
    (hb : env.place Side.buy lv.id = some bid)
    (hs : env.place Side.sell lv.id = some sid) :
    (current_price < lv.price →
      (update_one_level env current_price s lv).levels.find? (fun l => l.id = lv.id)
        = some { lv with status := LevelStatus.BUYING, buy_order_id := some bid })
    ∧ (lv.price < current_price →
      (update_one_level env current_price s lv).levels.find? (fun l => l.id = lv.id)
        = some { lv with status := LevelStatus.SELLING, sell_order_id := some sid })
    ∧ (current_price = lv.price → update_one_level env current_price s lv = s) := by
  refine ⟨?_, ?_, ?_⟩
  · intro h
    simp only [update_one_level, hst, if_pos h]
    rw [place_buy_order_levels _ _ _ hpz]
    simp only [hb]
    rw [find?_replaceFirst _ _ (fun a _ => by simp) s.levels, hlv]
    rfl
  · intro h
    simp only [update_one_level, hst, if_neg (lt_asymm h), if_pos h]
    rw [place_sell_order_levels _ _ _ hpz]
    simp only [hs]
    rw [find?_replaceFirst _ _ (fun a _ => by simp) s.levels, hlv]
    rfl
  · intro h
    simp [update_one_level, hst, h, lt_irrefl]

/-- Witness for `ready_level_price_gate`: a READY level at 150; price 120
yields a buy placement, price 150 yields no action. -/
theorem ready_level_price_gate_inst :
    ((120 : ℚ) < 150)
    ∧ (update_one_level ⟨1/100, 1/100,
          fun side _ => match side with | Side.buy => some "b1" | Side.sell => some "s1"⟩
        120 ⟨[⟨"level_0", 150, 200, none, none, LevelStatus.READY⟩], [], [], 0⟩
        ⟨"level_0", 150, 200, none, none, LevelStatus.READY⟩).levels.find?
          (fun l => l.id = "level_0")
      = some ⟨"level_0", 150, 200, some "b1", none, LevelStatus.BUYING⟩
    ∧ update_one_level ⟨1/100, 1/100,
          fun side _ => match side with | Side.buy => some "b1" | Side.sell => some "s1"⟩
        150 ⟨[⟨"level_0", 150, 200, none, none, LevelStatus.READY⟩], [], [], 0⟩
        ⟨"level_0", 150, 200, none, none, LevelStatus.READY⟩
      = ⟨[⟨"level_0", 150, 200, none, none, LevelStatus.READY⟩], [], [], 0⟩ :=
  ⟨by norm_num,
   (ready_level_price_gate _ 120 _ ⟨"level_0", 150, 200, none, none, LevelStatus.READY⟩
      "b1" "s1" rfl (by with_unfolding_all rfl)
      (by norm_num [adjust_to_precision, truncQ]) rfl rfl).1 (by norm_num),
   (ready_level_price_gate _ 150 _ ⟨"level_0", 150, 200, none, none, LevelStatus.READY⟩
      "b1" "s1" rfl (by with_unfolding_all rfl)
      (by norm_num [adjust_to_precision, truncQ]) rfl rfl).2.2 rfl⟩

/-- The outcome of one placement attempt for a single level in isolation:
unchanged if the adjusted price is zero (the division raises) or the venue
call raises, otherwise the level carries the new order id and status. -/
def attempt_order (env : Env) (side : Side) (lv : GridLevel) : GridLevel :=
  if adjust_to_precision lv.price env.price_prec = 0 then lv
  else
    match env.place side lv.id with
    | none => lv
    | some oid =>
      match side with
      | Side.buy => { lv with buy_order_id := some oid, status := LevelStatus.BUYING }
      | Side.sell => { lv with sell_order_id := some oid, status := LevelStatus.SELLING }

/-- The per-level outcome of one `update_grid_orders` step, independent of
every other level. -/
def level_step (env : Env) (current_price : ℚ) (lv : GridLevel) : GridLevel :=
  match lv.status with
  | LevelStatus.READY =>
    if current_price < lv.price then attempt_order env Side.buy lv
    else if current_price > lv.price then attempt_order env Side.sell lv
    else lv
  | LevelStatus.BOUGHT =>
    if lv.sell_order_id = none then attempt_order env Side.sell lv else lv
  | LevelStatus.SOLD =>
    if lv.buy_order_id = none then attempt_order env Side.buy lv else lv
  | _ => lv

theorem attempt_order_id (env : Env) (side : Side) (lv : GridLevel) :
    (attempt_order env side lv).id = lv.id := by
  unfold attempt_order
  split_ifs
  · rfl
  · cases h : env.place side lv.id
    · rfl
    · cases side <;> rfl

theorem level_step_id (env : Env) (price : ℚ) (lv : GridLevel) :
    (level_step env price lv).id = lv.id := by
  unfold level_step
  cases lv.status <;> split_ifs <;> simp [attempt_order_id]

theorem place_buy_order_of_zero (env : Env) (s : StratState) (lv : GridLevel)
    (h : adjust_to_precision lv.price env.price_prec = 0) :
    place_buy_order env s lv = s := by
  simp [place_buy_order, h]

theorem place_sell_order_of_zero (env : Env) (s : StratState) (lv : GridLevel)
    (h : adjust_to_precision lv.price env.price_prec = 0) :
    place_sell_order env s lv = s := by
  simp [place_sell_order, h]

/-- The level list after one loop iteration of `update_grid_orders` is the
old list with the first id-match replaced by that level's isolated step
outcome. -/
theorem update_one_level_levels (env : Env) (price : ℚ) (s : StratState) (lv : GridLevel)
    (hlv : s.levels.find? (fun l => l.id = lv.id) = some lv) :
    (update_one_level env price s lv).levels
      = replaceFirst (fun l => l.id = lv.id) (fun _ => level_step env price lv) s.levels := by
  by_cases hpz : adjust_to_precision lv.price env.price_prec = 0
  · have hstep : level_step env price lv = lv := by
      unfold level_step attempt_order
      cases lv.status <;> simp [hpz]
    rw [hstep, replaceFirst_self _ _ _ hlv]
    unfold update_one_level
    cases hstat : lv.status <;>
      split_ifs <;>
        simp [place_buy_order_of_zero _ _ _ hpz, place_sell_order_of_zero _ _ _ hpz]
  · unfold update_one_level level_step
    cases hstat : lv.status with
    | READY =>
      dsimp only
      split_ifs with h1 h2
      · rw [place_buy_order_levels _ _ _ hpz]
        cases h : env.place Side.buy lv.id
        · simp [h, attempt_order, hpz, replaceFirst_self _ _ _ hlv]
        · simp [h, attempt_order, hpz]
      · rw [place_sell_order_levels _ _ _ hpz]
        cases h : env.place Side.sell lv.id
        · simp [h, attempt_order, hpz, replaceFirst_self _ _ _ hlv]
        · simp [h, attempt_order, hpz]
      · rw [replaceFirst_self _ _ _ hlv]
    | BUYING => rw [replaceFirst_self _ _ _ hlv]
    | BOUGHT =>
      dsimp only
      split_ifs with h1
      · rw [place_sell_order_levels _ _ _ hpz]
        cases h : env.place Side.sell lv.id
        · simp [h, attempt_order, hpz, replaceFirst_self _ _ _ hlv]
        · simp [h, attempt_order, hpz]
      · rw [replaceFirst_self _ _ _ hlv]
    | SELLING => rw [replaceFirst_self _ _ _ hlv]
    | SOLD =>
      dsimp only
      split_ifs with h1
      · rw [place_buy_order_levels _ _ _ hpz]
        cases h : env.place Side.buy lv.id
        · simp [h, attempt_order, hpz, replaceFirst_self _ _ _ hlv]
        · simp [h, attempt_order, hpz]
      · rw [replaceFirst_self _ _ _ hlv]

theorem update_grid_orders_go (env : Env) (price : ℚ) :
    ∀ (todo A : List GridLevel) (om : OrderBook) (tr : List Trade) (ct : ℕ),
      (∀ l ∈ todo, ∀ a ∈ A, a.id ≠ l.id) →
      (todo.map (fun l => l.id)).Nodup →
      (todo.foldl (update_one_level env price) ⟨A ++ todo, om, tr, ct⟩).levels
        = A ++ todo.map (level_step env price) := by
  intro todo
  induction todo with
  | nil => intro A om tr ct _ _; simp
  | cons lv rest ih =>
    intro A om tr ct hdisj hnodup
    simp only [List.foldl_cons]
    have hfind : (A ++ lv :: rest).find? (fun l => l.id = lv.id) = some lv := by
      rw [List.find?_append]
      have hA : A.find? (fun l => l.id = lv.id) = none := by
        rw [List.find?_eq_none]
        intro a ha
        simpa using (hdisj lv (by simp) a ha)
      rw [hA]
      simp
    have hlevels :=
      update_one_level_levels env price ⟨A ++ lv :: rest, om, tr, ct⟩ lv hfind
    have hSlev :
        (update_one_level env price ⟨A ++ lv :: rest, om, tr, ct⟩ lv).levels
          = (A ++ [level_step env price lv]) ++ rest := by
      rw [hlevels]
      rw [replaceFirst_append_left _ _ A _
        (fun a ha => by simpa using (hdisj lv (by simp) a ha))]
      simp [replaceFirst]
    have hn : (∀ x ∈ rest, ¬x.id = lv.id) ∧ (rest.map (fun l => l.id)).Nodup := by
      simpa using hnodup
    have hdisj' : ∀ l ∈ rest, ∀ a ∈ A ++ [level_step env price lv], a.id ≠ l.id := by
      intro l hl a ha
      rcases List.mem_append.mp ha with haA | haS
      · exact hdisj l (List.mem_cons_of_mem lv hl) a haA
      · have haeq : a = level_step env price lv := by simpa using haS
        subst haeq
        intro hc
        rw [level_step_id] at hc
        exact hn.1 l hl hc.symm
    have hnodup' : (rest.map (fun l => l.id)).Nodup := hn.2
    have hstep :
        update_one_level env price ⟨A ++ lv :: rest, om, tr, ct⟩ lv
          = (⟨(A ++ [level_step env price lv]) ++ rest,
              (update_one_level env price ⟨A ++ lv :: rest, om, tr, ct⟩ lv).orders,
              (update_one_level env price ⟨A ++ lv :: rest, om, tr, ct⟩ lv).trades,
              (update_one_level env price ⟨A ++ lv :: rest, om, tr, ct⟩ lv).completed_trades⟩
            : StratState) := by
      have heta :
          update_one_level env price ⟨A ++ lv :: rest, om, tr, ct⟩ lv
            = (⟨(update_one_level env price ⟨A ++ lv :: rest, om, tr, ct⟩ lv).levels,
                (update_one_level env price ⟨A ++ lv :: rest, om, tr, ct⟩ lv).orders,
                (update_one_level env price ⟨A ++ lv :: rest, om, tr, ct⟩ lv).trades,
                (update_one_level env price ⟨A ++ lv :: rest, om, tr, ct⟩ lv).completed_trades⟩
              : StratState) := rfl
      rw [heta, hSlev]
    rw [hstep, ih _ _ _ _ hdisj' hnodup']
    simp

/-- C8: one reconciliation pass over the levels processes every level
independently: whatever exceptions individual placements raise (modelled by
`env.place` returning `none` or by a zero adjusted price, both caught inside
the placement attempt), the resulting level list is exactly the pointwise
per-level step of the old list, so no level's failure prevents any other
level from being processed and the cycle completes. -/
theorem update_grid_orders_levels_independent (env : Env) (price : ℚ) (s : StratState)
    (h : (s.levels.map (fun l => l.id)).Nodup) :
    (update_grid_orders env price s).levels = s.levels.map (level_step env price) := by
  have hgo := update_grid_orders_go env price s.levels [] s.orders s.trades s.completed_trades
    (by simp) h
  simp only [List.nil_append] at hgo
  exact hgo

/-- Witness for `update_grid_orders_levels_independent`: two READY levels;
the venue rejects every placement for `"level_0"` but accepts for
`"level_1"`; both levels are still processed (the first stays READY, the
second becomes BUYING). -/
theorem update_grid_orders_levels_independent_inst :
    (([⟨"level_0", 150, 200, none, none, LevelStatus.READY⟩,
       ⟨"level_1", 160, 200, none, none, LevelStatus.READY⟩] : List GridLevel).map
        (fun l => l.id)).Nodup
    ∧ (update_grid_orders
        ⟨1/100, 1/100, fun _ lid => if lid = "level_0" then none else some "b1"⟩ 120
        ⟨[⟨"level_0", 150, 200, none, none, LevelStatus.READY⟩,
          ⟨"level_1", 160, 200, none, none, LevelStatus.READY⟩], [], [], 0⟩).levels
      = ([⟨"level_0", 150, 200, none, none, LevelStatus.READY⟩,
          ⟨"level_1", 160, 200, none, none, LevelStatus.READY⟩] : List GridLevel).map
          (level_step ⟨1/100, 1/100, fun _ lid => if lid = "level_0" then none else some "b1"⟩ 120) :=
  ⟨by decide,
   update_grid_orders_levels_independent
     ⟨1/100, 1/100, fun _ lid => if lid = "level_0" then none else some "b1"⟩ 120
     ⟨[⟨"level_0", 150, 200, none, none, LevelStatus.READY⟩,
       ⟨"level_1", 160, 200, none, none, LevelStatus.READY⟩], [], [], 0⟩
     (by decide)⟩

/-- C3 counterexample: with the code's default venue precision `1e-8`,
`calculate_grid_levels` does not reproduce the claim.  For
`low = 1.000000005`, `high = 2`, two levels: the first stored price is `1`,
not `lowPrice`.  For `low = 1`, `high = 1.00000001`, three levels: the first
two stored prices are both `1`, so the stored prices are not strictly
increasing. -/
theorem calculate_grid_levels_endpoint_cex :
    ((calculate_grid_levels (200000001/200000000) 2 2 1 (1/100000000)).map (fun l => l.price))
      = [1, 2]
    ∧ (1 : ℚ) ≠ 200000001/200000000
    ∧ ((calculate_grid_levels 1 (100000001/100000000) 3 1 (1/100000000)).map (fun l => l.price))
      = [1, 1, 100000001/100000000] :=
  ⟨by with_unfolding_all rfl, by norm_num, by with_unfolding_all rfl⟩

theorem truncQ_mono {q r : ℚ} (h : q ≤ r) : truncQ q ≤ truncQ r := by
  unfold truncQ
  by_cases hq : 0 ≤ q
  · rw [if_pos hq, if_pos (le_trans hq h)]
    exact Int.floor_le_floor h
  · by_cases hr : 0 ≤ r
    · rw [if_neg hq, if_pos hr]
      exact le_trans (Int.ceil_le.mpr (by exact_mod_cast le_of_not_le hq))
        (Int.floor_nonneg.mpr hr)
    · rw [if_neg hq, if_neg hr]
      exact Int.ceil_le_ceil h

theorem adjust_to_precision_mono {v w : ℚ} (p : ℚ) (h : v ≤ w) :
    adjust_to_precision v p ≤ adjust_to_precision w p := by
  unfold adjust_to_precision
  by_cases hp : p ≤ 0
  · rw [if_pos hp, if_pos hp]; exact h
  · rw [if_neg hp, if_neg hp]
    have hp' : 0 < p := lt_of_not_le hp
    have hdiv : v / p ≤ w / p := div_le_div_of_nonneg_right h hp'.le
    exact mul_le_mul_of_nonneg_right (by exact_mod_cast truncQ_mono hdiv) hp'.le

/-- C3 (amended): for every valid configuration (`low < high`, `n ≥ 2`,
positive investment) the computation produces exactly `n` levels, each
allocated exactly `totalInvestment / n` (fresh READY levels with no order
references); the stored level prices are exactly the raw equally spaced
prices of `calculate_grid_prices` rounded down to the venue price precision,
hence non-decreasing; and the raw prices number `n`, form the arithmetic
progression `low + i·(high-low)/(n-1)`, start at `lowPrice`, end at
`highPrice`, and are strictly increasing with constant spacing. -/
theorem calculate_grid_levels_spec (low high total prec : ℚ) (n : ℕ)
    (hlh : low < high) (hn : 2 ≤ n) (ht : 0 < total) :
    (calculate_grid_levels low high n total prec).length = n
    ∧ (∀ l ∈ calculate_grid_levels low high n total prec,
        l.amount = total / (n : ℚ) ∧ l.status = LevelStatus.READY
        ∧ l.buy_order_id = none ∧ l.sell_order_id = none)
    ∧ (calculate_grid_levels low high n total prec).map (fun l => l.price)
        = (calculate_grid_prices low high n).map (fun q => adjust_to_precision q prec)
    ∧ (calculate_grid_prices low high n).length = n
    ∧ (∀ i : ℕ, i < n → (calculate_grid_prices low high n)[i]? =
        some (low + ((high - low) / ((n : ℚ) - 1)) * (i : ℚ)))
    ∧ (calculate_grid_prices low high n).head? = some low
    ∧ (calculate_grid_prices low high n).getLast? = some high
    ∧ List.Pairwise (· < ·) (calculate_grid_prices low high n)
    ∧ List.Pairwise (· ≤ ·)
        ((calculate_grid_levels low high n total prec).map (fun l => l.price)) := by
  have hn1 : ¬n ≤ 1 := by omega
  have h1n : 1 < n := by omega
  have hnq : (2 : ℚ) ≤ (n : ℚ) := by exact_mod_cast hn
  have hden : (0 : ℚ) < (n : ℚ) - 1 := by linarith
  have hstep : (0 : ℚ) < (high - low) / ((n : ℚ) - 1) :=
    div_pos (sub_pos.mpr hlh) hden
  have hgetp : ∀ i : ℕ, i < n → (calculate_grid_prices low high n)[i]? =
      some (low + ((high - low) / ((n : ℚ) - 1)) * (i : ℚ)) := by
    intro i hi
    simp only [calculate_grid_prices, if_neg hn1, List.getElem?_map, List.getElem?_range hi]
    rfl
  have hlen : (calculate_grid_prices low high n).length = n := by
    simp only [calculate_grid_prices, if_neg hn1, List.length_map, List.length_range]
  have hmapeq : (calculate_grid_levels low high n total prec).map (fun l => l.price)
      = (calculate_grid_prices low high n).map (fun q => adjust_to_precision q prec) := by
    simp only [calculate_grid_levels, calculate_grid_prices, if_neg hn1, if_pos h1n,
      List.map_map]
    rfl
  have hpair : List.Pairwise (· < ·) (calculate_grid_prices low high n) := by
    unfold calculate_grid_prices
    rw [if_neg hn1, List.pairwise_map]
    refine (List.pairwise_lt_range n).imp ?_
    intro a b hab
    have hab' : (a : ℚ) < (b : ℚ) := by exact_mod_cast hab
    have := mul_lt_mul_of_pos_left hab' hstep
    linarith
  refine ⟨by simp [calculate_grid_levels], ?_, hmapeq, hlen, hgetp, ?_, ?_, hpair, ?_⟩
  · intro l hl
    simp only [calculate_grid_levels, List.mem_map, List.mem_range] at hl
    rcases hl with ⟨i, _, rfl⟩
    exact ⟨rfl, rfl, rfl, rfl⟩
  · rw [List.head?_eq_getElem?, hgetp 0 (by omega)]
    simp
  · rw [List.getLast?_eq_getElem?, hlen, hgetp (n - 1) (by omega)]
    have hcast : ((n - 1 : ℕ) : ℚ) = (n : ℚ) - 1 := by
      have h1 : (1 : ℕ) ≤ n := by omega
      push_cast [h1]
      ring
    rw [hcast, div_mul_cancel₀ _ (ne_of_gt hden)]
    norm_num
  · rw [hmapeq, List.pairwise_map]
    exact hpair.imp (fun hab => adjust_to_precision_mono prec (le_of_lt hab))

/-- Witness for `calculate_grid_levels_spec` at the spec's own scenario:
range 100..200, five levels, investment 1000, precision 0.01: the raw prices
start at 100 and end at 200. -/
theorem calculate_grid_levels_spec_inst :
    ((100 : ℚ) < 200) ∧ (2 ≤ 5) ∧ ((0 : ℚ) < 1000)
    ∧ (calculate_grid_prices 100 200 5).head? = some 100
    ∧ (calculate_grid_prices 100 200 5).getLast? = some 200 :=
  ⟨by norm_num, by norm_num, by norm_num,
   (calculate_grid_levels_spec 100 200 1000 (1/100) 5 (by norm_num) (by norm_num)
      (by norm_num)).2.2.2.2.2.1,
   (calculate_grid_levels_spec 100 200 1000 (1/100) 5 (by norm_num) (by norm_num)
      (by norm_num)).2.2.2.2.2.2.1⟩

/-- Python dict lookup on an association list. -/
def dict_get {α : Type} (l : List (String × α)) (k : String) : Option α :=
  (l.find? (fun p => p.1 = k)).map (fun p => p.2)

/-- Python dict assignment: replace the value in place when the key exists,
append otherwise. -/
def dict_set {α : Type} (l : List (String × α)) (k : String) (v : α) :
    List (String × α) :=
  if l.any (fun p => p.1 = k) then l.map (fun p => if p.1 = k then (k, v) else p)
  else l ++ [(k, v)]

/-- Hedge-side status strings: `"creating"`, `"open"`, `"filled"`,
`"canceled"`; `opened` stands for `"open"`. -/
inductive HStatus
  | creating
  | opened
  | filled
  | canceled
deriving DecidableEq, Repr

/-- One member hedge order of a group (`hedge_order_info["orders"][id]`);
the `exchange_id` and timestamp fields are omitted. -/
structure HedgeMemberOrder where
  exchange_name : String
  status : HStatus
deriving DecidableEq, Repr

/-- A hedge order group (`HedgeManager.hedge_orders[original_order_id]`). -/
structure HedgeGroup where
  strategy_id : String
  level_id : String
  side : Side
  amount : ℚ
  price : ℚ
  status : HStatus
  orders : List (String × HedgeMemberOrder)
deriving DecidableEq, Repr

/-- A strategy's hedge configuration
(`HedgeManager.hedge_strategies[strategy_id]`); the `initialized` flag and
`last_update` timestamp are omitted. -/
structure HedgeConfig where
  trading_pair : String
  exchanges : List String
  price_precision : ℚ
  amount_precision : ℚ
deriving DecidableEq, Repr

/-- The mutable state of a `HedgeManager`. -/
structure HedgeState where
  hedge_strategies : List (String × HedgeConfig)
  hedge_orders : List (String × HedgeGroup)
  reverse_lookup : List (String × String)
deriving DecidableEq, Repr

/-- A venue order status observed by `fetch_order`. -/
inductive FetchedStatus
  | closed
  | canceled
  | other
deriving DecidableEq, Repr

/-- The venue environment of the hedge manager: configured hedge venues and
the outcomes of the venue calls (an `Option` result of `none` models the call
raising). -/
structure HedgeEnv where
  hedge_exchanges : List String
  place : String → Side → Option String
  cancel_ok : String → String → Bool
  resolve : String → Bool
  fetch_status : String → Option FetchedStatus
  market_precision : Option (ℕ × ℕ)

/-- `HedgeManager.initialize_for_strategy`: fails soft (returns `false`)
when no hedge venue is configured, otherwise stores the hedge config with
the default `1e-8` precisions. -/
def initialize_for_strategy (env : HedgeEnv) (st : HedgeState)
    (strategy_id trading_pair : String) : Bool × HedgeState :=
  if env.hedge_exchanges.isEmpty then (false, st)
  else
    (true, { st with hedge_strategies := (dict_set st.hedge_strategies strategy_id
      ⟨trading_pair, env.hedge_exchanges, 1/100000000, 1/100000000⟩) })

/-- The precision step `Decimal(f"0.{'0'*(p-1)}1")` built by
`_update_precision_if_needed`: `10^-p` for `p ≥ 1`, and `0.1` for `p = 0`
(the Python string trick yields `"0.1"` there). -/
def precision_of_digits (p : ℕ) : ℚ := 1 / 10 ^ (max p 1)

/-- `HedgeManager._update_precision_if_needed`: despite its name it fetches
the market info unconditionally and overwrites the stored precisions on
every successful fetch; a fetch exception leaves them unchanged. -/
def update_precision_if_needed (env : HedgeEnv) (st : HedgeState)
    (strategy_id : String) : HedgeState :=
  match dict_get st.hedge_strategies strategy_id with
  | none => st
  | some cfg =>
    match env.market_precision with
    | none => st
    | some pa =>
      { st with hedge_strategies := (dict_set st.hedge_strategies strategy_id
          { cfg with price_precision := precision_of_digits pa.1,
                     amount_precision := precision_of_digits pa.2 }) }

/-- Result of `create_hedge_order`: the new state, the returned list of
placed hedge order ids, and whether a precision fetch was performed. -/
structure HedgeCreateResult where
  state : HedgeState
  placed : List String
  fetched_precision : Bool
deriving Repr

/-- `HedgeManager.create_hedge_order`: reverse the side, refresh precision
from the first configured hedge venue, round price/amount down, place one
order per hedge venue (independently tolerating per-venue failure), and on
at least one success store/overwrite the group (status `"open"`) and the
reverse-lookup entries. -/
def create_hedge_order (env : HedgeEnv) (st : HedgeState) (strategy_id : String)
    (side : Side) (amount price : ℚ) (level_id : String)
    (original_order_id : String) : HedgeCreateResult :=
  match dict_get st.hedge_strategies strategy_id with
  | none => ⟨st, [], false⟩
  | some cfg =>
    let hedge_side := side.opposite
    let st1 := if cfg.exchanges.isEmpty then st
               else update_precision_if_needed env st strategy_id
    let cfg1 := (dict_get st1.hedge_strategies strategy_id).getD cfg
    let rounded_price := round_to_precision price cfg1.price_precision
    let rounded_amount := round_to_precision amount cfg1.amount_precision
    let successes := cfg.exchanges.filterMap
      (fun ex => (env.place ex hedge_side).map (fun oid => (oid, ex)))
    let hedge_order_ids := successes.map (fun p => p.1)
    let members := successes.foldl
      (fun m p => dict_set m p.1 ⟨p.2, HStatus.opened⟩)
      ([] : List (String × HedgeMemberOrder))
    let rl := successes.foldl (fun r p => dict_set r p.1 original_order_id)
      st1.reverse_lookup
    if hedge_order_ids.isEmpty then
      ⟨{ st1 with reverse_lookup := rl }, [], !cfg.exchanges.isEmpty⟩
    else
      ⟨{ st1 with
          hedge_orders := dict_set st1.hedge_orders original_order_id
            ⟨strategy_id, level_id, hedge_side, rounded_amount, rounded_price,
             HStatus.opened, members⟩,
          reverse_lookup := rl },
        hedge_order_ids, !cfg.exchanges.isEmpty⟩

/-- Per-member effect of `cancel_hedge_orders`: only currently open members
with a resolvable venue are cancelled, and a member is marked `"canceled"`
only when the venue call succeeds (the assignment sits after the `await`
inside the `try`). -/
def cancel_member (env : HedgeEnv) (p : String × HedgeMemberOrder) :
    String × HedgeMemberOrder :=
  if p.2.status = HStatus.opened then
    if env.resolve p.2.exchange_name then
      if env.cancel_ok p.2.exchange_name p.1 then
        (p.1, { p.2 with status := HStatus.canceled })
      else p
    else p
  else p

/-- `HedgeManager.cancel_hedge_orders`: cancel every open member (see
`cancel_member`), then mark the group itself `"canceled"` regardless. -/
def cancel_hedge_orders (env : HedgeEnv) (st : HedgeState)
    (original_order_id : String) : HedgeState :=
  match dict_get st.hedge_orders original_order_id with
  | none => st
  | some info =>
    match dict_get st.hedge_strategies info.strategy_id with
    | none => st
    | some _ =>
      { st with hedge_orders := (dict_set st.hedge_orders original_order_id
          { info with orders := info.orders.map (cancel_member env),
                      status := HStatus.canceled }) }

/-- Per-member effect of `HedgeManager.update`: poll an open member's venue
status and apply an observed terminal transition; fetch failures and
unresolvable venues leave the member unchanged. -/
def update_member (env : HedgeEnv) (p : String × HedgeMemberOrder) :
    String × HedgeMemberOrder :=
  if p.2.status = HStatus.opened then
    if env.resolve p.2.exchange_name then
      match env.fetch_status p.1 with
      | some FetchedStatus.closed => (p.1, { p.2 with status := HStatus.filled })
      | some FetchedStatus.canceled => (p.1, { p.2 with status := HStatus.canceled })
      | _ => p
    else p
  else p

/-- Per-group effect of `HedgeManager.update`: only open groups of the
requested strategy have their members polled; the group-level status is
never modified. -/
def update_group (env : HedgeEnv) (strategy_id : String) (g : HedgeGroup) : HedgeGroup :=
  if g.strategy_id = strategy_id ∧ g.status = HStatus.opened then
    { g with orders := g.orders.map (update_member env) }
  else g

/-- `HedgeManager.update` (hedge-side reconciliation): for every open group
of the strategy, poll each open member order (see `update_group`). -/
def hedge_update (env : HedgeEnv) (st : HedgeState) (strategy_id : String) :
    HedgeState :=
  if (dict_get st.hedge_strategies strategy_id).isNone then st
  else
    { st with hedge_orders := st.hedge_orders.map (fun p =>
        (p.1, update_group env strategy_id p.2)) }

/-- `HedgeManager.handle_order_filled`: mark the group `"filled"` exactly
when every member order is already filled (this is the only place a group
status ever becomes `"filled"`). -/
def hedge_handle_order_filled (st : HedgeState) (original_order_id : String) :
    HedgeState :=
  match dict_get st.hedge_orders original_order_id with
  | none => st
  | some info =>
    if info.orders.all (fun p => p.2.status = HStatus.filled) then
      { st with hedge_orders := (dict_set st.hedge_orders original_order_id
          { info with status := HStatus.filled }) }
    else st

/-- HedgeManager states reachable through the public API from a fresh
manager. -/
inductive HReachable : HedgeState → Prop
  | init : HReachable ⟨[], [], []⟩
  | init_strategy (env : HedgeEnv) (sid pair : String) {s : HedgeState} :
      HReachable s → HReachable (initialize_for_strategy env s sid pair).2
  | create (env : HedgeEnv) (sid : String) (side : Side) (amount price : ℚ)
      (level_id orig : String) {s : HedgeState} :
      HReachable s →
      HReachable (create_hedge_order env s sid side amount price level_id orig).state
  | cancel (env : HedgeEnv) (orig : String) {s : HedgeState} :
      HReachable s → HReachable (cancel_hedge_orders env s orig)
  | reconcile (env : HedgeEnv) (sid : String) {s : HedgeState} :
      HReachable s → HReachable (hedge_update env s sid)
  | handle (orig : String) {s : HedgeState} :
      HReachable s → HReachable (hedge_handle_order_filled s orig)

/-- The group-status invariant: every group marked `"filled"` has every
member order filled. -/
def filled_groups_ok (st : HedgeState) : Prop :=
  ∀ k g, dict_get st.hedge_orders k = some g → g.status = HStatus.filled →
    g.orders.all (fun p => p.2.status = HStatus.filled) = true

theorem find?_map_set {α : Type} (k : String) (v : α) :
    ∀ l : List (String × α), l.any (fun p => p.1 = k) = true →
      (l.map (fun p => if p.1 = k then (k, v) else p)).find? (fun p => p.1 = k)
        = some (k, v) := by
  intro l
  induction l with
  | nil => intro h; simp at h
  | cons x xs ih =>
    intro h
    by_cases hx : x.1 = k
    · simp [hx]
    · have hany : xs.any (fun p => p.1 = k) = true := by
        rcases List.any_eq_true.mp h with ⟨y, hy, hyk⟩
        rcases List.mem_cons.mp hy with hEq | hmem
        · subst hEq; exact absurd (by simpa using hyk) hx
        · exact List.any_eq_true.mpr ⟨y, hmem, hyk⟩
      simp only [List.map_cons, if_neg hx]
      rw [List.find?_cons_of_neg _ (by simpa using hx)]
      exact ih hany

theorem find?_map_set_ne {α : Type} (k k' : String) (v : α) (hk : k' ≠ k) :
    ∀ l : List (String × α),
      (l.map (fun p => if p.1 = k then (k, v) else p)).find? (fun p => p.1 = k')
        = l.find? (fun p => p.1 = k') := by
  intro l
  induction l with
  | nil => rfl
  | cons x xs ih =>
    by_cases hx : x.1 = k
    · simp only [List.map_cons, if_pos hx]
      rw [List.find?_cons_of_neg _ (by simp [Ne.symm hk]),
        List.find?_cons_of_neg _ (by simp [hx, Ne.symm hk])]
      exact ih
    · simp only [List.map_cons, if_neg hx]
      by_cases hx' : x.1 = k'
      · rw [List.find?_cons_of_pos _ (by simpa using hx'),
          List.find?_cons_of_pos _ (by simpa using hx')]
      · rw [List.find?_cons_of_neg _ (by simpa using hx'),
          List.find?_cons_of_neg _ (by simpa using hx')]
        exact ih

theorem dict_get_set_self {α : Type} (l : List (String × α)) (k : String) (v : α) :
    dict_get (dict_set l k v) k = some v := by
  unfold dict_get dict_set
  by_cases h : l.any (fun p => p.1 = k)
  · rw [if_pos h, find?_map_set k v l h]
    rfl
  · rw [if_neg h, List.find?_append]
    have hnone : l.find? (fun p => p.1 = k) = none :=
      List.find?_eq_none.mpr (fun p hp hpk => h (List.any_eq_true.mpr ⟨p, hp, hpk⟩))
    rw [hnone]
    simp

theorem dict_get_set_ne {α : Type} (l : List (String × α)) (k k' : String) (v : α)
    (hk : k' ≠ k) : dict_get (dict_set l k v) k' = dict_get l k' := by
  unfold dict_get dict_set
  by_cases h : l.any (fun p => p.1 = k)
  · rw [if_pos h, find?_map_set_ne k k' v hk l]
  · rw [if_neg h, List.find?_append]
    cases hf : l.find? (fun p => p.1 = k') with
    | some x => rfl
    | none =>
      show (([(k, v)].find? (fun p => p.1 = k')).map (fun p => p.2)) = none
      rw [List.find?_cons_of_neg _ (by simp [Ne.symm hk])]
      rfl

theorem dict_get_map {α : Type} (f : String → α → α) :
    ∀ (l : List (String × α)) (k : String),
      dict_get (l.map (fun p => (p.1, f p.1 p.2))) k = (dict_get l k).map (f k) := by
  intro l k
  induction l with
  | nil => rfl
  | cons x xs ih =>
    by_cases hx : x.1 = k
    · unfold dict_get
      rw [List.map_cons,
        List.find?_cons_of_pos _ (by simpa using hx),
        List.find?_cons_of_pos _ (by simpa using hx)]
      simp [hx]
    · unfold dict_get at ih ⊢
      rw [List.map_cons,
        List.find?_cons_of_neg _ (by simpa using hx),
        List.find?_cons_of_neg _ (by simpa using hx)]
      exact ih

theorem update_precision_if_needed_orders (env : HedgeEnv) (st : HedgeState)
    (sid : String) :
    (update_precision_if_needed env st sid).hedge_orders = st.hedge_orders := by
  unfold update_precision_if_needed
  cases dict_get st.hedge_strategies sid with
  | none => rfl
  | some cfg => cases env.market_precision <;> rfl

/-- `create_hedge_order` either leaves the group table unchanged (unknown
strategy, or no venue accepted the order) or stores a fresh group with
status `"open"` under the original order id. -/
theorem create_hedge_order_orders (env : HedgeEnv) (st : HedgeState)
    (sid : String) (side : Side) (amount price : ℚ) (level_id orig : String) :
    (create_hedge_order env st sid side amount price level_id orig).state.hedge_orders
      = st.hedge_orders
    ∨ ∃ (members : List (String × HedgeMemberOrder)) (ra rp : ℚ),
        (create_hedge_order env st sid side amount price level_id orig).state.hedge_orders
          = dict_set st.hedge_orders orig
              ⟨sid, level_id, side.opposite, ra, rp, HStatus.opened, members⟩ := by
  unfold create_hedge_order
  cases hcfg : dict_get st.hedge_strategies sid with
  | none => left; rfl
  | some cfg =>
    dsimp only
    have hords :
        (if cfg.exchanges.isEmpty then st
         else update_precision_if_needed env st sid).hedge_orders = st.hedge_orders := by
      split
      · rfl
      · exact update_precision_if_needed_orders env st sid
    split
    · left
      exact hords
    · right
      exact ⟨_, _, _, by rw [hords]⟩

/-- C5 (amended): in every HedgeManager state reachable through the public
API, a hedge group whose status is `"filled"` has every member order filled
(group status becomes `"filled"` only through `handle_order_filled`, which
is guarded by exactly that condition); but hedge-side reconciliation
(`update`) itself never changes any group-level status — it only advances
member statuses — so observing the last open member as filled does not by
itself mark the group `"filled"`. -/
theorem hedge_group_filled_invariant :
    (∀ s : HedgeState, HReachable s → filled_groups_ok s)
    ∧ ∀ (env : HedgeEnv) (s : HedgeState) (sid k : String),
        (dict_get (hedge_update env s sid).hedge_orders k).map (fun g => g.status)
          = (dict_get s.hedge_orders k).map (fun g => g.status) := by
  constructor
  · intro s hws
    induction hws with
    | init =>
      intro k g hget hstat
      simp [dict_get] at hget
    | init_strategy env sid pair hr ih =>
      intro k g hget hstat
      refine ih k g ?_ hstat
      unfold initialize_for_strategy at hget
      by_cases h : env.hedge_exchanges.isEmpty
      · simpa [h] using hget
      · simpa [h] using hget
    | create env sid side amount price level_id orig hr ih =>
      intro k g hget hstat
      rcases create_hedge_order_orders env _ sid side amount price level_id orig with
        heq | ⟨members, ra, rp, heq⟩
      · rw [heq] at hget
        exact ih k g hget hstat
      · rw [heq] at hget
        by_cases hk : k = orig
        · subst hk
          rw [dict_get_set_self] at hget
          cases hget
          cases hstat
        · rw [dict_get_set_ne _ _ _ _ hk] at hget
          exact ih k g hget hstat
    | cancel env orig hr ih =>
      intro k g hget hstat
      unfold cancel_hedge_orders at hget
      cases hg : dict_get _ orig with
      | none =>
        rw [hg] at hget
        exact ih k g hget hstat
      | some info =>
        rw [hg] at hget
        dsimp only at hget
        cases hs : dict_get _ info.strategy_id with
        | none =>
          rw [hs] at hget
          exact ih k g hget hstat
        | some cfg =>
          rw [hs] at hget
          by_cases hk : k = orig
          · subst hk
            rw [dict_get_set_self] at hget
            cases hget
            cases hstat
          · rw [dict_get_set_ne _ _ _ _ hk] at hget
            exact ih k g hget hstat
    | reconcile env sid hr ih =>
      intro k g hget hstat
      unfold hedge_update at hget
      split at hget
      case isTrue => exact ih k g hget hstat
      case isFalse =>
      rw [dict_get_map (fun _ v => update_group env sid v)] at hget
      cases hg : dict_get _ k with
      | none =>
        rw [hg] at hget
        cases hget
      | some g0 =>
        rw [hg] at hget
        simp only [Option.map_some'] at hget
        unfold update_group at hget
        by_cases hcond : g0.strategy_id = sid ∧ g0.status = HStatus.opened
        · rw [if_pos hcond] at hget
          cases hget
          have hs2 : g0.status = HStatus.filled := hstat
          rw [hcond.2] at hs2
          cases hs2
        · rw [if_neg hcond] at hget
          cases hget
          exact ih k _ hg hstat
    | handle orig hr ih =>
      intro k g hget hstat
      unfold hedge_handle_order_filled at hget
      cases hg : dict_get _ orig with
      | none =>
        rw [hg] at hget
        exact ih k g hget hstat
      | some info =>
        rw [hg] at hget
        dsimp only at hget
        by_cases hall : info.orders.all (fun p => p.2.status = HStatus.filled) = true
        · rw [if_pos hall] at hget
          by_cases hk : k = orig
          · subst hk
            rw [dict_get_set_self] at hget
            cases hget
            exact hall
          · rw [dict_get_set_ne _ _ _ _ hk] at hget
            exact ih k g hget hstat
        · rw [if_neg hall] at hget
          exact ih k g hget hstat
  · intro env s sid k
    unfold hedge_update
    split
    · rfl
    · rw [dict_get_map (fun _ v => update_group env sid v)]
      cases dict_get s.hedge_orders k with
      | none => rfl
      | some g =>
        simp only [Option.map_some']
        unfold update_group
        split <;> rfl

/-- C5 counterexample: a reachable state (initialize, create one hedge order
on venue `"hx"`, then run hedge-side reconciliation which observes the only
member order filled): the member is marked filled, yet the group's status
remains `"open"`, not `"filled"` — `update` never promotes the group
status. -/
theorem hedge_update_group_status_cex :
    dict_get (hedge_update
        ⟨["hx"], fun _ _ => some "h1", fun _ _ => true, fun _ => true,
         fun _ => some FetchedStatus.closed, none⟩
        (create_hedge_order
          ⟨["hx"], fun _ _ => some "h1", fun _ _ => true, fun _ => true,
           fun _ => some FetchedStatus.closed, none⟩
          (initialize_for_strategy
            ⟨["hx"], fun _ _ => some "h1", fun _ _ => true, fun _ => true,
             fun _ => some FetchedStatus.closed, none⟩
            ⟨[], [], []⟩ "s" "BTC/USDT").2
          "s" Side.buy 1 100 "level_0" "p1").state
        "s").hedge_orders "p1"
      = some ⟨"s", "level_0", Side.sell, 1, 100, HStatus.opened,
          [("h1", ⟨"hx", HStatus.filled⟩)]⟩
    ∧ HStatus.opened ≠ HStatus.filled
    ∧ HReachable (hedge_update
        ⟨["hx"], fun _ _ => some "h1", fun _ _ => true, fun _ => true,
         fun _ => some FetchedStatus.closed, none⟩
        (create_hedge_order
          ⟨["hx"], fun _ _ => some "h1", fun _ _ => true, fun _ => true,
           fun _ => some FetchedStatus.closed, none⟩
          (initialize_for_strategy
            ⟨["hx"], fun _ _ => some "h1", fun _ _ => true, fun _ => true,
             fun _ => some FetchedStatus.closed, none⟩
            ⟨[], [], []⟩ "s" "BTC/USDT").2
          "s" Side.buy 1 100 "level_0" "p1").state
        "s") :=
  ⟨by with_unfolding_all rfl, by decide,
   HReachable.reconcile _ "s"
     (HReachable.create _ "s" Side.buy 1 100 "level_0" "p1"
       (HReachable.init_strategy _ "s" "BTC/USDT" HReachable.init))⟩

/-- Witness for `hedge_group_filled_invariant`: applied to the reachable
state obtained by also running `handle_order_filled` after the scenario of
the counterexample; its group is `"filled"` and the invariant yields that
all members are filled. -/
theorem hedge_group_filled_invariant_inst :
    (⟨"s", "level_0", Side.sell, 1, 100, HStatus.filled,
        [("h1", ⟨"hx", HStatus.filled⟩)]⟩ : HedgeGroup).orders.all
      (fun p => p.2.status = HStatus.filled) = true :=
  hedge_group_filled_invariant.1
    (hedge_handle_order_filled
      (hedge_update
        ⟨["hx"], fun _ _ => some "h1", fun _ _ => true, fun _ => true,
         fun _ => some FetchedStatus.closed, none⟩
        (create_hedge_order
          ⟨["hx"], fun _ _ => some "h1", fun _ _ => true, fun _ => true,
           fun _ => some FetchedStatus.closed, none⟩
          (initialize_for_strategy
            ⟨["hx"], fun _ _ => some "h1", fun _ _ => true, fun _ => true,
             fun _ => some FetchedStatus.closed, none⟩
            ⟨[], [], []⟩ "s" "BTC/USDT").2
          "s" Side.buy 1 100 "level_0" "p1").state
        "s") "p1")
    (HReachable.handle "p1"
      (HReachable.reconcile _ "s"
        (HReachable.create _ "s" Side.buy 1 100 "level_0" "p1"
          (HReachable.init_strategy _ "s" "BTC/USDT" HReachable.init))))
    "p1"
    ⟨"s", "level_0", Side.sell, 1, 100, HStatus.filled,
      [("h1", ⟨"hx", HStatus.filled⟩)]⟩
    (by with_unfolding_all rfl) rfl

/-- C6 (amended): cancelling a group's hedge orders walks every member: an
open member whose venue resolves and whose cancellation call succeeds is
marked `"canceled"`; an open member whose cancellation call raises, or whose
venue cannot be resolved, keeps status `"open"` (it is NOT marked canceled);
non-open members are untouched; and the group-level status is set to
`"canceled"` regardless of the individual outcomes. -/
theorem cancel_hedge_orders_spec (env : HedgeEnv) (st : HedgeState) (orig : String)
    (info : HedgeGroup) (cfg : HedgeConfig)
    (hg : dict_get st.hedge_orders orig = some info)
    (hs : dict_get st.hedge_strategies info.strategy_id = some cfg) :
    dict_get (cancel_hedge_orders env st orig).hedge_orders orig
      = some { info with status := HStatus.canceled, orders := info.orders.map (cancel_member env) }
    ∧ ∀ oid m, (oid, m) ∈ info.orders →
        ((m.status = HStatus.opened → env.resolve m.exchange_name = true →
            env.cancel_ok m.exchange_name oid = true →
            (oid, { m with status := HStatus.canceled })
              ∈ info.orders.map (cancel_member env))
        ∧ (m.status = HStatus.opened → env.resolve m.exchange_name = true →
            env.cancel_ok m.exchange_name oid = false →
            (oid, m) ∈ info.orders.map (cancel_member env))
        ∧ (m.status = HStatus.opened → env.resolve m.exchange_name = false →
            (oid, m) ∈ info.orders.map (cancel_member env))
        ∧ (m.status ≠ HStatus.opened →
            (oid, m) ∈ info.orders.map (cancel_member env))) := by
  constructor
  · simp only [cancel_hedge_orders, hg, hs]
    exact dict_get_set_self _ _ _
  · intro oid m hmem
    refine ⟨?_, ?_, ?_, ?_⟩
    · intro h1 h2 h3
      have hc : cancel_member env (oid, m) = (oid, { m with status := HStatus.canceled }) := by
        simp [cancel_member, h1, h2, h3]
      exact hc ▸ List.mem_map_of_mem (cancel_member env) hmem
    · intro h1 h2 h3
      have hc : cancel_member env (oid, m) = (oid, m) := by
        simp [cancel_member, h1, h2, h3]
      exact hc ▸ List.mem_map_of_mem (cancel_member env) hmem
    · intro h1 h2
      have hc : cancel_member env (oid, m) = (oid, m) := by
        simp [cancel_member, h1, h2]
      exact hc ▸ List.mem_map_of_mem (cancel_member env) hmem
    · intro h1
      have hc : cancel_member env (oid, m) = (oid, m) := by
        simp [cancel_member, h1]
      exact hc ▸ List.mem_map_of_mem (cancel_member env) hmem

/-- Witness for `cancel_hedge_orders_spec`: a group with two open members;
the venue accepts the cancellation of `"h1"` and raises for `"h2"`; after
the walk, `"h1"` is canceled and `"h2"` is still open. -/
theorem cancel_hedge_orders_spec_inst :
    ("h1", (⟨"hx", HStatus.canceled⟩ : HedgeMemberOrder))
      ∈ ([("h1", ⟨"hx", HStatus.opened⟩), ("h2", ⟨"hy", HStatus.opened⟩)] :
          List (String × HedgeMemberOrder)).map
        (cancel_member ⟨["hx"], fun _ _ => none, fun _ oid => oid == "h1", fun _ => true,
          fun _ => none, none⟩)
    ∧ ("h2", (⟨"hy", HStatus.opened⟩ : HedgeMemberOrder))
      ∈ ([("h1", ⟨"hx", HStatus.opened⟩), ("h2", ⟨"hy", HStatus.opened⟩)] :
          List (String × HedgeMemberOrder)).map
        (cancel_member ⟨["hx"], fun _ _ => none, fun _ oid => oid == "h1", fun _ => true,
          fun _ => none, none⟩) := by
  have h := cancel_hedge_orders_spec
    ⟨["hx"], fun _ _ => none, fun _ oid => oid == "h1", fun _ => true, fun _ => none, none⟩
    ⟨[("s", ⟨"BTC/USDT", ["hx"], 1/100000000, 1/100000000⟩)],
     [("o1", ⟨"s", "level_0", Side.sell, 1, 100, HStatus.opened,
        [("h1", ⟨"hx", HStatus.opened⟩), ("h2", ⟨"hy", HStatus.opened⟩)]⟩)],
     []⟩ "o1"
    ⟨"s", "level_0", Side.sell, 1, 100, HStatus.opened,
      [("h1", ⟨"hx", HStatus.opened⟩), ("h2", ⟨"hy", HStatus.opened⟩)]⟩
    ⟨"BTC/USDT", ["hx"], 1/100000000, 1/100000000⟩
    (by with_unfolding_all rfl) (by with_unfolding_all rfl)
  exact ⟨(h.2 "h1" ⟨"hx", HStatus.opened⟩ (by decide)).1 rfl rfl
           (by with_unfolding_all rfl),
         (h.2 "h2" ⟨"hy", HStatus.opened⟩ (by decide)).2.1 rfl rfl
           (by with_unfolding_all rfl)⟩

/-- C6 counterexample: a group with one open member on venue `"hx"`; the
venue resolves but the cancellation call raises (`cancel_ok = false`); after
`cancel_hedge_orders` the member's status is still `"open"`, not
`"canceled"`, contradicting "marks each such member as canceled regardless
of whether the venue cancellation call succeeds or raises" (only the
group-level status is set to canceled). -/
theorem cancel_hedge_orders_raises_cex :
    dict_get (cancel_hedge_orders
        ⟨["hx"], fun _ _ => none, fun _ _ => false, fun _ => true, fun _ => none, none⟩
        ⟨[("s", ⟨"BTC/USDT", ["hx"], 1/100000000, 1/100000000⟩)],
         [("o1", ⟨"s", "level_0", Side.sell, 1, 100, HStatus.opened,
            [("h1", ⟨"hx", HStatus.opened⟩)]⟩)],
         [("h1", "o1")]⟩ "o1").hedge_orders "o1"
      = some ⟨"s", "level_0", Side.sell, 1, 100, HStatus.canceled,
          [("h1", ⟨"hx", HStatus.opened⟩)]⟩
    ∧ HStatus.opened ≠ HStatus.canceled :=
  ⟨by with_unfolding_all rfl, by decide⟩

/-- C7: the precision refresh in `create_hedge_order` is NOT lazy, contrary
to the claim, the spec, and the code's own naming
(`_update_precision_if_needed`, "默认值，将在首次下单时更新"): the market
info of the first hedge venue is fetched on every call, and the stored
precisions are overwritten from it even when they are already known.  Here
the first call stores precisions for digit counts (2, 3); the second call
performs another fetch (`fetched_precision = true`) and overwrites the
stored price precision from `0.01` to `0.0001`. -/
theorem create_hedge_order_always_fetches :
    (create_hedge_order
        ⟨["hx"], fun _ _ => some "h1", fun _ _ => true, fun _ => true, fun _ => none,
         some (2, 3)⟩
        ⟨[("s", ⟨"BTC/USDT", ["hx"], 1/100000000, 1/100000000⟩)], [], []⟩
        "s" Side.buy 1 100 "level_0" "p1").fetched_precision = true
    ∧ (dict_get (create_hedge_order
        ⟨["hx"], fun _ _ => some "h1", fun _ _ => true, fun _ => true, fun _ => none,
         some (2, 3)⟩
        ⟨[("s", ⟨"BTC/USDT", ["hx"], 1/100000000, 1/100000000⟩)], [], []⟩
        "s" Side.buy 1 100 "level_0" "p1").state.hedge_strategies "s").map
          (fun c => c.price_precision) = some (1/100)
    ∧ (create_hedge_order
        ⟨["hx"], fun _ _ => some "h2", fun _ _ => true, fun _ => true, fun _ => none,
         some (4, 5)⟩
        (create_hedge_order
          ⟨["hx"], fun _ _ => some "h1", fun _ _ => true, fun _ => true, fun _ => none,
           some (2, 3)⟩
          ⟨[("s", ⟨"BTC/USDT", ["hx"], 1/100000000, 1/100000000⟩)], [], []⟩
          "s" Side.buy 1 100 "level_0" "p1").state
        "s" Side.buy 1 100 "level_0" "p2").fetched_precision = true
    ∧ (dict_get (create_hedge_order
        ⟨["hx"], fun _ _ => some "h2", fun _ _ => true, fun _ => true, fun _ => none,
         some (4, 5)⟩
        (create_hedge_order
          ⟨["hx"], fun _ _ => some "h1", fun _ _ => true, fun _ => true, fun _ => none,
           some (2, 3)⟩
          ⟨[("s", ⟨"BTC/USDT", ["hx"], 1/100000000, 1/100000000⟩)], [], []⟩
          "s" Side.buy 1 100 "level_0" "p1").state
        "s" Side.buy 1 100 "level_0" "p2").state.hedge_strategies "s").map
          (fun c => c.price_precision) = some (1/10000) :=
  ⟨by with_unfolding_all rfl, by with_unfolding_all rfl,
   by with_unfolding_all rfl, by with_unfolding_all rfl⟩
